import Mathlib

/-!
Verification development for the promotion-rule validator
(`saleor/graphql/discount/mutations/promotion/validators.py`) and the
flat-rate order tax/discount calculator (`saleor/tax/calculations/order.py`).

Python `Decimal` values are embedded as `ℚ`; Python dict-shaped predicate
trees are embedded as the inductive `PredValue`; presence of a key in the
`cleaned_input` dict is embedded as an outer `Option` layer (so a field of
type `Option (Option α)` distinguishes "key absent" / "key present with
value None" / "key present with a value").
-/

set_option maxRecDepth 4000

/-! ## String helpers: graphene's `to_camel_case` -/

/-- Split a character list at every underscore, like Python's `str.split("_")`
(`"".split("_") == [""]`, `"_".split("_") == ["", ""]`). -/
def splitUnders : List Char → List (List Char)
  | [] => [[]]
  | c :: cs =>
    if c = '_' then [] :: splitUnders cs
    else
      match splitUnders cs with
      | [] => [[c]]
      | g :: gs => (c :: g) :: gs

/-- Python's `str.capitalize`: first character upper-cased, the rest lower-cased. -/
def pyCapitalize : List Char → List Char
  | [] => []
  | a :: as => Char.toUpper a :: as.map Char.toLower

/-- Join the split groups the way `graphene.utils.str_converters.to_camel_case`
does: first component kept verbatim, every later component capitalized, an
empty component (from a doubled underscore) rendered as an underscore. -/
def camelJoin : List (List Char) → List Char
  | [] => []
  | g :: rest => g ++ (rest.map (fun x => if x = [] then ['_'] else pyCapitalize x)).flatten

/-- `to_camel_case` from `graphene.utils.str_converters`. -/
def toCamelCase (s : String) : String := ⟨camelJoin (splitUnders s.data)⟩

/-- Substring test on character lists (Python's `needle in haystack`). -/
def containsSub : List Char → List Char → Bool
  | n, [] => n.isEmpty
  | n, c :: cs => n.isPrefixOf (c :: cs) || containsSub n cs

/-! ## Predicate trees -/

/-- A JSON-ish predicate tree as stored in `catalogue_predicate` /
`checkout_and_order_predicate`: a dict node, a list node, or a scalar leaf
(scalars other than containers are passed through untouched by
`clean_predicate`, so a string leaf suffices to embed them). -/
inductive PredValue where
  | leaf : String → PredValue
  | pdict : List (String × PredValue) → PredValue
  | plist : List PredValue → PredValue

mutual
def decEqPredValue : (a b : PredValue) → Decidable (a = b)
  | .leaf s, .leaf t =>
    match decEq s t with
    | isTrue h => isTrue (by rw [h])
    | isFalse h => isFalse (fun hh => by cases hh; exact h rfl)
  | .leaf _, .pdict _ => isFalse (fun h => by cases h)
  | .leaf _, .plist _ => isFalse (fun h => by cases h)
  | .pdict _, .leaf _ => isFalse (fun h => by cases h)
  | .pdict es, .pdict fs =>
    match decEqPredEntries es fs with
    | isTrue h => isTrue (by rw [h])
    | isFalse h => isFalse (fun hh => by cases hh; exact h rfl)
  | .pdict _, .plist _ => isFalse (fun h => by cases h)
  | .plist _, .leaf _ => isFalse (fun h => by cases h)
  | .plist _, .pdict _ => isFalse (fun h => by cases h)
  | .plist l, .plist m =>
    match decEqPredItems l m with
    | isTrue h => isTrue (by rw [h])
    | isFalse h => isFalse (fun hh => by cases hh; exact h rfl)

def decEqPredEntries : (a b : List (String × PredValue)) → Decidable (a = b)
  | [], [] => isTrue rfl
  | [], _ :: _ => isFalse (fun h => by cases h)
  | _ :: _, [] => isFalse (fun h => by cases h)
  | (k, v) :: r, (k2, v2) :: r2 =>
    match decEq k k2, decEqPredValue v v2, decEqPredEntries r r2 with
    | isTrue h1, isTrue h2, isTrue h3 => isTrue (by rw [h1, h2, h3])
    | isFalse h1, _, _ => isFalse (fun hh => by cases hh; exact h1 rfl)
    | _, isFalse h2, _ => isFalse (fun hh => by cases hh; exact h2 rfl)
    | _, _, isFalse h3 => isFalse (fun hh => by cases hh; exact h3 rfl)

def decEqPredItems : (a b : List PredValue) → Decidable (a = b)
  | [], [] => isTrue rfl
  | [], _ :: _ => isFalse (fun h => by cases h)
  | _ :: _, [] => isFalse (fun h => by cases h)
  | v :: r, v2 :: r2 =>
    match decEqPredValue v v2, decEqPredItems r r2 with
    | isTrue h2, isTrue h3 => isTrue (by rw [h2, h3])
    | isFalse h2, _ => isFalse (fun hh => by cases hh; exact h2 rfl)
    | _, isFalse h3 => isFalse (fun hh => by cases hh; exact h3 rfl)
end

instance : DecidableEq PredValue := decEqPredValue

/-- Python truthiness of a predicate value: empty containers and the empty
string are falsy. -/
def predTruthy : PredValue → Bool
  | .leaf s => !s.isEmpty
  | .pdict es => !es.isEmpty
  | .plist l => !l.isEmpty

/-- Truthiness of an optional predicate value (`None` is falsy). -/
def optPredTruthy : Option PredValue → Bool
  | none => false
  | some p => predTruthy p

/-- `_contains_operator`: does the dict have an `AND` or `OR` key. -/
def containsOperator (entries : List (String × PredValue)) : Bool :=
  ["AND", "OR"].any (fun op => entries.any (fun e => e.1 = op))

mutual
/-- `clean_predicate`: validate that operators are not mixed with other
filter inputs and rewrite every dict key with `to_camel_case`; `none` embeds
the raised `ValidationError`.  A scalar at the top level is not a valid
predicate (Python would fail on `.keys()`), hence `none`. -/
def clean_predicate : PredValue → Option PredValue
  | .leaf _ => none
  | .plist items => (cleanPredItems items).map .plist
  | .pdict entries =>
    if containsOperator entries && decide (entries.length > 1) then none
    else (cleanPredEntries entries).map .pdict

/-- The list comprehension inside `clean_predicate`: clean dict/list items,
keep scalars. -/
def cleanPredItems : List PredValue → Option (List PredValue)
  | [] => some []
  | item :: rest =>
    let cleaned : Option PredValue :=
      match item with
      | .leaf s => some (.leaf s)
      | .pdict es => clean_predicate (.pdict es)
      | .plist l => clean_predicate (.plist l)
    match cleaned, cleanPredItems rest with
    | some c, some cs => some (c :: cs)
    | _, _ => none

/-- The dict comprehension inside `clean_predicate`: camel-case each key,
clean dict/list values, keep scalar values. -/
def cleanPredEntries : List (String × PredValue) → Option (List (String × PredValue))
  | [] => some []
  | (k, v) :: rest =>
    let cleaned : Option PredValue :=
      match v with
      | .leaf s => some (.leaf s)
      | .pdict es => clean_predicate (.pdict es)
      | .plist l => clean_predicate (.plist l)
    match cleaned, cleanPredEntries rest with
    | some c, some cs => some ((toCamelCase k, c) :: cs)
    | _, _ => none
end

/-! ## Fixed points of `clean_predicate` -/

/-- A key free of underscores (such keys are unchanged by `to_camel_case`). -/
def noUnderscoreKey (s : String) : Bool := decide ('_' ∉ s.data)

mutual
/-- Every dict key at every level of the tree is free of underscores. -/
def noUnderscoreKeys : PredValue → Bool
  | .leaf _ => true
  | .pdict es => noUnderscoreEntriesKeys es
  | .plist l => noUnderscoreItemsKeys l

def noUnderscoreEntriesKeys : List (String × PredValue) → Bool
  | [] => true
  | (k, v) :: rest => noUnderscoreKey k && noUnderscoreKeys v && noUnderscoreEntriesKeys rest

def noUnderscoreItemsKeys : List PredValue → Bool
  | [] => true
  | v :: rest => noUnderscoreKeys v && noUnderscoreItemsKeys rest
end

/-! ## Validator data model -/

/-- The logical field names used as error keys and input-dict keys in
`clean_promotion_rule`. -/
inductive FieldName where
  | catalogue_predicate
  | checkout_and_order_predicate
  | reward_type
  | reward_value
  | reward_value_type
  | channels
  | add_channels
  | remove_channels
deriving DecidableEq

/-- The error codes appearing in the validators. -/
inductive ErrCode where
  | required
  | mixed_predicates
  | mixed_promotion_predicates
  | invalid
  | invalid_precision
  | missing_channels
  | multiple_currencies_not_allowed
  | rules_number_limit
deriving DecidableEq

/-- A recorded validation error: the error dict maps a field name to an
ordered list of errors, embedded here as an ordered list of
`(field, code)` pairs. -/
abbrev FieldErr := FieldName × ErrCode

/-- `RewardType` enum (values are non-empty strings, hence always truthy). -/
inductive RewardType where
  | subtotal_discount
  | gift
deriving DecidableEq

/-- `RewardValueType` enum. -/
inductive RewardValueType where
  | fixed
  | percentage
deriving DecidableEq

/-- `PredicateType` enum from `saleor.graphql.discount.utils`. -/
inductive PredicateType where
  | catalogue
  | checkout_and_order
deriving DecidableEq

/-- A channel: only its identity and currency code matter to the validator. -/
structure Channel where
  id : Nat
  currency_code : String
deriving DecidableEq

/-- A promotion: the validator only reads `promotion.rules.count()`. -/
structure Promotion where
  rules_count : Nat
deriving DecidableEq

/-- The existing `PromotionRule` instance on update.  Model fields may be
`None` (`none`); in the database the predicate fields default to `\x7b\x7d`
(an empty dict), which is covered by `some (.pdict [])`. -/
structure RuleInstance where
  catalogue_predicate : Option PredValue
  checkout_and_order_predicate : Option PredValue
  reward_value : Option ℚ
  reward_value_type : Option RewardValueType
  reward_type : Option RewardType
  channels : List Channel

/-- The `cleaned_input` dict.  Each field is `Option (Option α)`: the outer
layer is key presence (`key in cleaned_input`), the inner layer the stored
value, which may itself be `None`. -/
structure CleanedInput where
  catalogue_predicate : Option (Option PredValue)
  checkout_and_order_predicate : Option (Option PredValue)
  reward_type : Option (Option RewardType)
  reward_value : Option (Option ℚ)
  reward_value_type : Option (Option RewardValueType)
  channels : Option (Option (List Channel))
  add_channels : Option (Option (List Channel))
  remove_channels : Option (Option (List Channel))
  promotion : Option (Option Promotion)

/-- The empty `cleaned_input` (no keys present). -/
def emptyInput : CleanedInput := ⟨none, none, none, none, none, none, none, none, none⟩

/-- `dict.get(key)`: `None` both when the key is absent and when the stored
value is `None`. -/
def getOpt {α : Type} (f : Option (Option α)) : Option α := f.getD none

/-- Replace the `catalogue_predicate` entry of the input dict. -/
def setCataloguePredicate (x : CleanedInput) (v : Option (Option PredValue)) : CleanedInput :=
  ⟨v, x.checkout_and_order_predicate, x.reward_type, x.reward_value, x.reward_value_type,
    x.channels, x.add_channels, x.remove_channels, x.promotion⟩

/-- Replace the `checkout_and_order_predicate` entry of the input dict. -/
def setCheckoutPredicate (x : CleanedInput) (v : Option (Option PredValue)) : CleanedInput :=
  ⟨x.catalogue_predicate, v, x.reward_type, x.reward_value, x.reward_value_type,
    x.channels, x.add_channels, x.remove_channels, x.promotion⟩

/-- `field in cleaned_input` for the two predicate fields. -/
def inputHasField (x : CleanedInput) : FieldName → Bool
  | .catalogue_predicate => x.catalogue_predicate.isSome
  | .checkout_and_order_predicate => x.checkout_and_order_predicate.isSome
  | .reward_type => x.reward_type.isSome
  | .reward_value => x.reward_value.isSome
  | .reward_value_type => x.reward_value_type.isSome
  | .channels => x.channels.isSome
  | .add_channels => x.add_channels.isSome
  | .remove_channels => x.remove_channels.isSome

/-- Validator configuration passed explicitly: the global
`settings.CHECKOUT_AND_ORDER_RULES_LIMIT` and the currency-precision service
(`get_currency_fraction`). -/
structure ValidatorConfig where
  rules_limit : Nat
  precisionOf : String → Nat

/-! ## Effective values resolved from input and instance -/

/-- Lines 18-24 of `clean_promotion_rule`: the effective catalogue predicate,
`cleaned_input.get(...) or instance.catalogue_predicate` (truthiness `or`). -/
def effectiveCataloguePredicate (input : CleanedInput) (inst : Option RuleInstance) :
    Option PredValue :=
  let v := getOpt input.catalogue_predicate
  match inst with
  | none => v
  | some i => if optPredTruthy v then v else i.catalogue_predicate

/-- The effective checkout-and-order predicate, resolved the same way. -/
def effectiveCheckoutPredicate (input : CleanedInput) (inst : Option RuleInstance) :
    Option PredValue :=
  let v := getOpt input.checkout_and_order_predicate
  match inst with
  | none => v
  | some i => if optPredTruthy v then v else i.checkout_and_order_predicate

/-- Reward-type resolution used by both predicate cleaners (validators lines
154-156 and 199-201): the input value, falling back to the instance value
only when the key is absent from the input. -/
def effectiveRewardType (input : CleanedInput) (inst : Option RuleInstance) :
    Option RewardType :=
  match inst with
  | some i => if input.reward_type = none then i.reward_type else getOpt input.reward_type
  | none => getOpt input.reward_type

/-- Reward-value resolution in `_clean_reward` (lines 295-298): input value if
the key is present (even when `None`), else the instance value. -/
def effectiveRewardValue (input : CleanedInput) (inst : Option RuleInstance) : Option ℚ :=
  match inst with
  | some i => if input.reward_value.isSome then getOpt input.reward_value else i.reward_value
  | none => getOpt input.reward_value

/-- Reward-value-type resolution in `_clean_reward` (lines 299-303). -/
def effectiveRewardValueType (input : CleanedInput) (inst : Option RuleInstance) :
    Option RewardValueType :=
  match inst with
  | some i =>
    if input.reward_value_type.isSome then getOpt input.reward_value_type
    else i.reward_value_type
  | none => getOpt input.reward_value_type

/-! ## Channel currencies -/

/-- Insert a currency into the accumulated set (embedded as an ordered
duplicate-free list, preserving Python-set insertion order). -/
def insertCurrency (l : List String) (c : String) : List String :=
  if c ∈ l then l else l ++ [c]

/-- The set of currency codes of a list of channels. -/
def currenciesOf (chans : List Channel) : List String :=
  chans.foldl (fun acc ch => insertCurrency acc ch.currency_code) []

/-- `_get_channel_currencies`: on create, the currencies of the input
channels; on update, the instance-channel currencies minus the currencies of
`remove_channels`, then extended with the currencies of `add_channels`. -/
def _get_channel_currencies (input : CleanedInput) (inst : Option RuleInstance) :
    List String :=
  match inst with
  | none => currenciesOf ((getOpt input.channels).getD [])
  | some i =>
    let removed := currenciesOf ((getOpt input.remove_channels).getD [])
    let afterRemove := (currenciesOf i.channels).filter (fun c => !removed.contains c)
    ((getOpt input.add_channels).getD []).foldl
      (fun acc ch => insertCurrency acc ch.currency_code) afterRemove

/-- The effective currency set as the claim words it: the currencies of
`(existing channels − remove_channels) ∪ add_channels`, with the set
difference taken on channels, not on currency codes. -/
def claimed_channel_currencies (input : CleanedInput) (i : RuleInstance) : List String :=
  let removedIds := ((getOpt input.remove_channels).getD []).map (·.id)
  let remaining := i.channels.filter (fun ch => !removedIds.contains ch.id)
  currenciesOf (remaining ++ (getOpt input.add_channels).getD [])

/-! ## Price-based predicate detection -/

mutual
/-- Rendering of a predicate value in the style of Python's `str` on nested
dicts/lists, used by the `price_based_predicate` substring test.  Quotes
around atoms are omitted; this cannot change the outcome of a substring test
for a needle made only of letters and underscores, because every separator
used here contains a character outside that alphabet. -/
def pyStr : PredValue → String
  | .leaf s => s
  | .pdict es => "\x7b" ++ pyStrEntries es ++ "\x7d"
  | .plist l => "[" ++ pyStrItems l ++ "]"

def pyStrEntries : List (String × PredValue) → String
  | [] => ""
  | [(k, v)] => k ++ ": " ++ pyStr v
  | (k, v) :: rest => k ++ ": " ++ pyStr v ++ ", " ++ pyStrEntries rest

def pyStrItems : List PredValue → String
  | [] => ""
  | [v] => pyStr v
  | v :: rest => pyStr v ++ ", " ++ pyStrItems rest
end

/-- `price_based_predicate` (validators lines 215-218): the textual
representation of the predicate mentions a subtotal/total price field. -/
def priceBasedPredicate (p : PredValue) : Bool :=
  ["subtotal_price", "subtotalPrice", "total_price", "totalPrice"].any
    (fun f => containsSub f.data (pyStr p).data)

/-! ## Validation stages -/

/-- `_clean_predicates` (stage 1): returns the `invalid_predicates` flag and
the errors it records. -/
def _clean_predicates (input : CleanedInput) (catP chkP : Option PredValue)
    (inst : Option RuleInstance) (pt : Option PredicateType) : Bool × List FieldErr :=
  if catP = none && chkP = none then
    (true, [(.catalogue_predicate, .required), (.checkout_and_order_predicate, .required)])
  else if optPredTruthy catP && optPredTruthy chkP then
    let fields : List FieldName :=
      if inst.isSome then
        [FieldName.catalogue_predicate, FieldName.checkout_and_order_predicate].filter
          (fun f => inputHasField input f)
      else [FieldName.catalogue_predicate, FieldName.checkout_and_order_predicate]
    (true, fields.map (fun f => (f, ErrCode.mixed_predicates)))
  else if optPredTruthy catP && pt = some PredicateType.checkout_and_order then
    (true, [(.catalogue_predicate, .mixed_promotion_predicates)])
  else if optPredTruthy chkP && pt = some PredicateType.catalogue then
    (true, [(.checkout_and_order_predicate, .mixed_promotion_predicates)])
  else (false, [])

/-- `_clean_catalogue_predicate` (stage 2). -/
def _clean_catalogue_predicate (input : CleanedInput) (catP : Option PredValue)
    (inst : Option RuleInstance) (errs : List FieldErr) : CleanedInput × List FieldErr :=
  if !optPredTruthy catP then (input, errs)
  else
    let rt := effectiveRewardType input inst
    if rt.isSome then (input, errs ++ [(.reward_type, .invalid)])
    else if input.catalogue_predicate = none then (input, errs)
    else
      match catP with
      | none => (input, errs)
      | some p =>
        match clean_predicate p with
        | some cleaned => (setCataloguePredicate input (some (some cleaned)), errs)
        | none => (input, errs ++ [(.catalogue_predicate, .invalid)])

/-- The field the MULTIPLE_CURRENCIES_NOT_ALLOWED error of
`_clean_checkout_and_order_predicate` is attached to (lines 220-226). -/
def multiCurrencyErrorField (input : CleanedInput) (inst : Option RuleInstance) : FieldName :=
  match inst with
  | some _ =>
    if input.add_channels.isSome then .add_channels else .checkout_and_order_predicate
  | none => .channels

/-- `_clean_checkout_and_order_predicate` (stage 3). -/
def _clean_checkout_and_order_predicate (input : CleanedInput) (chkP : Option PredValue)
    (channel_currencies : List String) (cfg : ValidatorConfig) (inst : Option RuleInstance)
    (errs : List FieldErr) : CleanedInput × List FieldErr :=
  if !optPredTruthy chkP then (input, errs)
  else
    let rt := effectiveRewardType input inst
    if rt = none then (input, errs ++ [(.reward_type, .required)])
    else
      match chkP with
      | none => (input, errs)
      | some p =>
        if decide (1 < channel_currencies.length) && priceBasedPredicate p then
          (input, errs ++ [(multiCurrencyErrorField input inst, .multiple_currencies_not_allowed)])
        else if input.checkout_and_order_predicate = none then (input, errs)
        else
          match clean_predicate p with
          | none => (input, errs ++ [(.checkout_and_order_predicate, .invalid)])
          | some cleaned =>
            let input2 := setCheckoutPredicate input (some (some cleaned))
            match getOpt input.promotion with
            | some promo =>
              if cfg.rules_limit ≤ promo.rules_count then
                (input2, errs ++ [(.checkout_and_order_predicate, .rules_number_limit)])
              else (input2, errs)
            | none => (input2, errs)

/-- Modelled from the spec: `validate_price_precision` (the currency
precision service, `saleor.graphql.core.validators`, not part of the sources)
accepts a decimal whose number of decimal places does not exceed the
currency's minor-unit precision. -/
def validPricePrecision (v : ℚ) (precision : Nat) : Bool :=
  (v * (10 : ℚ) ^ precision).den = 1

/-- `_clean_reward_value`. -/
def _clean_reward_value (input : CleanedInput) (v : ℚ) (t : RewardValueType)
    (channel_currencies : List String) (cfg : ValidatorConfig) (inst : Option RuleInstance)
    (errs : List FieldErr) : List FieldErr :=
  match t with
  | .fixed =>
    if errs.any (fun e => e.1 = FieldName.channels) then errs
    else if channel_currencies.isEmpty then
      let ef : FieldName :=
        match inst with
        | some _ =>
          if input.reward_value_type.isSome then .reward_value_type else .remove_channels
        | none => .channels
      errs ++ [(ef, .missing_channels)]
    else if decide (1 < channel_currencies.length) then
      let ef : FieldName :=
        match inst with
        | some _ =>
          if input.reward_value_type.isSome then .reward_value_type else .add_channels
        | none => .reward_value_type
      errs ++ [(ef, .multiple_currencies_not_allowed)]
    else
      let currency := channel_currencies.headD ""
      if validPricePrecision v (cfg.precisionOf currency) then errs
      else errs ++ [(.reward_value, .invalid_precision)]
  | .percentage =>
    if 100 < v then errs ++ [(.reward_value, .invalid)] else errs

/-- `_clean_reward` (stage 4). -/
def _clean_reward (input : CleanedInput) (catP chkP : Option PredValue)
    (channel_currencies : List String) (cfg : ValidatorConfig) (inst : Option RuleInstance)
    (errs : List FieldErr) : List FieldErr :=
  if inst.isSome && input.reward_value = none && input.reward_value_type = none then errs
  else
    let rv := effectiveRewardValue input inst
    let rvt := effectiveRewardValueType input inst
    let errs1 :=
      if rvt = none && (optPredTruthy catP || optPredTruthy chkP) then
        errs ++ [(.reward_value_type, .required)]
      else errs
    let errs2 :=
      if rv = none && (optPredTruthy catP || optPredTruthy chkP) then
        errs1 ++ [(.reward_value, .required)]
      else errs1
    match rv, rvt with
    | some v, some t =>
      if v ≠ 0 then _clean_reward_value input v t channel_currencies cfg inst errs2
      else errs2
    | _, _ => errs2

/-- `clean_promotion_rule`: resolve the effective predicates, run stage 1,
and when it passes run stages 2-4 over the shared error accumulator,
returning the (possibly normalized) input and the recorded errors. -/
def clean_promotion_rule (cfg : ValidatorConfig) (input : CleanedInput)
    (inst : Option RuleInstance) (predicate_type : Option PredicateType) :
    CleanedInput × List FieldErr :=
  let catP := effectiveCataloguePredicate input inst
  let chkP := effectiveCheckoutPredicate input inst
  let stage1 := _clean_predicates input catP chkP inst predicate_type
  if stage1.1 then (input, stage1.2)
  else
    let channel_currencies := _get_channel_currencies input inst
    let r2 := _clean_catalogue_predicate input catP inst stage1.2
    let r3 := _clean_checkout_and_order_predicate r2.1 chkP channel_currencies cfg inst r2.2
    let errs4 := _clean_reward r3.1 catP chkP channel_currencies cfg inst r3.2
    (r3.1, errs4)

/-! ## Concrete inputs used by counterexamples and witnesses -/

/-- An input whose two predicate keys are both present and both hold an empty
dict (a falsy but non-`None` predicate). -/
def c2_input : CleanedInput :=
  ⟨some (some (.pdict [])), some (some (.pdict [])), none, none, none, none, none, none, none⟩

/-- An instance with two distinct channels that share one currency. -/
def c3_inst : RuleInstance :=
  ⟨some (.pdict []), some (.pdict []), none, none, none, [⟨1, "USD"⟩, ⟨2, "USD"⟩]⟩

/-- An update input removing channel 1 (and nothing else). -/
def c3_input : CleanedInput :=
  ⟨none, none, none, none, none, none, none, some (some [⟨1, "USD"⟩]), none⟩

/-- A price-based checkout/order predicate. -/
def c5_pred : PredValue :=
  .pdict [("total_price", .pdict [("range", .pdict [("gte", .leaf "20")])])]

/-- An instance holding one EUR channel. -/
def c5_inst : RuleInstance :=
  ⟨some (.pdict []), some (.pdict []), none, none, none, [⟨2, "EUR"⟩]⟩

/-- An update input that sets a price-based checkout/order predicate, a
reward type, a FIXED reward value, and adds a USD channel (so the effective
currency set is two-valued). -/
def c5_input : CleanedInput :=
  ⟨none, some (some c5_pred), some (some .subtotal_discount), some (some 5),
    some (some .fixed), none, some (some [⟨1, "USD"⟩]), none, none⟩

/-- A create input used by the C5 witness: price-based predicate, reward
type, no channels key. -/
def c5w_input : CleanedInput :=
  ⟨none, some (some (.pdict [("subtotalPrice", .leaf "z")])),
    some (some .subtotal_discount), none, none, none, none, none, none⟩

/-- A create input carrying a zero reward value with a percentage type. -/
def c10_input : CleanedInput :=
  ⟨some (some (.pdict [("x", .leaf "1")])), none, none, some (some 0),
    some (some .percentage), none, none, none, none⟩

/-! ## Order tax calculator: numeric embedding -/

/-- Round half to even on rationals (the default rounding of Python's
`Decimal.quantize`). -/
def roundHalfEven (x : ℚ) : ℤ :=
  let f := ⌊x⌋
  let r := x - (f : ℚ)
  if r < 1 / 2 then f
  else if 1 / 2 < r then f + 1
  else if f % 2 = 0 then f else f + 1

/-- Modelled from the spec: `quantize_price` (`saleor.core.prices`, not among
the sources) rounds a monetary amount to the currency's minor-unit precision
`prec`. -/
def quantizeQ (prec : ℕ) (x : ℚ) : ℚ :=
  (roundHalfEven (x * (10 : ℚ) ^ prec) : ℚ) / (10 : ℚ) ^ prec

/-- A `prices.TaxedMoney` with the currency fixed: a net and a gross amount. -/
structure TaxedMoneyQ where
  net : ℚ
  gross : ℚ
deriving DecidableEq

/-- TaxedMoney addition (componentwise). -/
def tmAdd (a b : TaxedMoneyQ) : TaxedMoneyQ := ⟨a.net + b.net, a.gross + b.gross⟩

/-- TaxedMoney times a quantity. -/
def tmMulNat (a : TaxedMoneyQ) (n : Nat) : TaxedMoneyQ := ⟨a.net * (n : ℚ), a.gross * (n : ℚ)⟩

/-- TaxedMoney minus a bare Money amount: the `prices` library subtracts it
from both net and gross. -/
def tmSubMoney (a : TaxedMoneyQ) (m : ℚ) : TaxedMoneyQ := ⟨a.net - m, a.gross - m⟩

/-- The `prices` library's TaxedMoney `<=`: strict comparison is on gross,
equality compares both parts. -/
def tmLe (a b : TaxedMoneyQ) : Prop := a.gross < b.gross ∨ a = b

instance (a b : TaxedMoneyQ) : Decidable (tmLe a b) := by
  unfold tmLe
  infer_instance

/-- Python's `max(total, zero_taxed_money(currency))`: the built-in `max`
returns the second argument only when it is strictly greater, and TaxedMoney
`>` compares gross amounts. -/
def tmMaxZero (t : TaxedMoneyQ) : TaxedMoneyQ := if t.gross < 0 then ⟨0, 0⟩ else t

/-- Quantize both parts of a TaxedMoney (`quantize_price` on TaxedMoney). -/
def quantizeTM (prec : Nat) (t : TaxedMoneyQ) : TaxedMoneyQ :=
  ⟨quantizeQ prec t.net, quantizeQ prec t.gross⟩

/-- Modelled from the spec: `calculate_flat_rate_tax` (`saleor.tax.calculations`,
not among the sources) applies a flat percent rate to a price; when prices are
entered with tax the price is the gross amount, otherwise the net amount. -/
def calculate_flat_rate_tax (price rate : ℚ) (prices_entered_with_tax : Bool) : TaxedMoneyQ :=
  if prices_entered_with_tax then ⟨price / (1 + rate / 100), price⟩
  else ⟨price, price * (1 + rate / 100)⟩

/-- Modelled from the spec: `get_tax_rate_for_tax_class` (`saleor.tax.utils`,
not among the sources) — the rate-lookup contract `tax_rate_for_class
(tax_class_or_none, country) → rate_or_none` with fallback to the country
default rate; the country is pre-applied in `lookup`. -/
def get_tax_rate_for_tax_class (lookup : Option Nat → Option ℚ) (tax_class : Option Nat)
    (default_tax_rate : ℚ) : ℚ :=
  (lookup tax_class).getD default_tax_rate

/-- Modelled from the spec: `normalize_tax_rate_for_db` stores the percent
rate in fractional form. -/
def normalize_tax_rate_for_db (rate : ℚ) : ℚ := rate / 100

/-- A product: its own tax-class id/reference and its product type's tax
class (tax classes are embedded as opaque ids looked up by the rate table). -/
structure ProductT where
  tax_class_id : Option Nat
  tax_class : Option Nat
  product_type_tax_class : Option Nat
deriving DecidableEq

/-- A product variant. -/
structure VariantT where
  product : Option ProductT
deriving DecidableEq

/-- An order line: the base fields read by the calculator and the derived
price fields it overwrites. -/
structure OrderLineT where
  base_unit_price : ℚ
  undiscounted_base_unit_price : ℚ
  quantity : Nat
  variant : Option VariantT
  unit_price : TaxedMoneyQ
  undiscounted_unit_price : TaxedMoneyQ
  total_price : TaxedMoneyQ
  undiscounted_total_price : TaxedMoneyQ
  tax_rate : ℚ
deriving DecidableEq

/-- Lines 113-121 of `update_taxes_for_order_lines`: resolve the line's tax
class (the product's own if its id is set, else the product type's) and look
up the rate. -/
def tax_rate_for_line (lookup : Option Nat → Option ℚ) (default_tax_rate : ℚ)
    (v : VariantT) : ℚ :=
  let tax_class : Option Nat :=
    match v.product with
    | some p => if p.tax_class_id.isSome then p.tax_class else p.product_type_tax_class
    | none => none
  get_tax_rate_for_tax_class lookup tax_class default_tax_rate

/-- The per-line result of `update_taxes_for_order_lines`: the updated line,
together with the discount share applied to it (when the discount branch ran)
and the discounted unit price before tax (when the line was processed at
all; a variant-less line is skipped and left untouched). -/
structure LineCalcResult where
  line : OrderLineT
  discount_share : Option ℚ
  price_with_discounts : Option ℚ
deriving DecidableEq

/-- Lines 147-161: apply the flat tax on the discounted and undiscounted unit
prices and write the derived fields (the totals use the unquantized taxed
unit prices, as the source does). -/
def finishLine (prec : Nat) (pewt : Bool) (tax_rate pwd : ℚ) (l : OrderLineT) : OrderLineT :=
  let unit_price := calculate_flat_rate_tax pwd tax_rate pewt
  let undiscounted_unit_price :=
    calculate_flat_rate_tax l.undiscounted_base_unit_price tax_rate pewt
  ⟨l.base_unit_price, l.undiscounted_base_unit_price, l.quantity, l.variant,
    quantizeTM prec unit_price, quantizeTM prec undiscounted_unit_price,
    quantizeTM prec (tmMulNat unit_price l.quantity),
    quantizeTM prec (tmMulNat undiscounted_unit_price l.quantity),
    normalize_tax_rate_for_db tax_rate⟩

/-- One iteration of the loop in `update_taxes_for_order_lines` (lines
108-161).  `D` is `total_discount_amount`, `OT` is `order_total_price`,
`acc` is `total_line_discounts`.  `none` embeds a raised
`ZeroDivisionError`: dividing by `order_total_price` when it is zero
(non-last line of the proportional branch), or dividing by a zero
`line.quantity` in the discount branch. -/
def processOrderLine (prec : Nat) (lookup : Option Nat → Option ℚ) (dtr : ℚ) (pewt : Bool)
    (D OT : ℚ) (isLast : Bool) (acc : ℚ) (l : OrderLineT) :
    Option (LineCalcResult × ℚ) :=
  match l.variant with
  | none => some (⟨l, none, none⟩, acc)
  | some v =>
    let tax_rate := tax_rate_for_line lookup dtr v
    let line_total := l.base_unit_price * (l.quantity : ℚ)
    if D ≠ 0 then
      let share : Option ℚ :=
        if isLast then some (D - acc)
        else if OT = 0 then none
        else some (quantizeQ prec (line_total / OT * D))
      match share with
      | none => none
      | some s =>
        if l.quantity = 0 then none
        else
          some (⟨finishLine prec pewt tax_rate
              (max (quantizeQ prec ((line_total - s) / (l.quantity : ℚ))) 0) l,
            some s, some (max (quantizeQ prec ((line_total - s) / (l.quantity : ℚ))) 0)⟩,
            acc + s)
    else
      some (⟨finishLine prec pewt tax_rate l.base_unit_price l, none,
        some l.base_unit_price⟩, acc)

/-- The loop of `update_taxes_for_order_lines`: `line is lines[-1]` holds
exactly for the positionally last element (the lines are distinct ORM
objects). -/
def processOrderLines (prec : Nat) (lookup : Option Nat → Option ℚ) (dtr : ℚ) (pewt : Bool)
    (D OT : ℚ) : List OrderLineT → ℚ → Option (List LineCalcResult)
  | [], _ => some []
  | l :: rest, acc =>
    match processOrderLine prec lookup dtr pewt D OT rest.isEmpty acc l with
    | none => none
    | some (r, acc2) =>
      match processOrderLines prec lookup dtr pewt D OT rest acc2 with
      | none => none
      | some rs => some (r :: rs)

/-- `update_taxes_for_order_lines`.  `total_discount_amount` stands for
`get_total_order_discount_excluding_shipping(order).amount` (modelled from
the spec as an input: the order-level discount minus its shipping-related
component), `prec` for the order currency's precision, `lookup`/`dtr` for the
rate table and the country default rate. -/
def update_taxes_for_order_lines (prec : Nat) (lookup : Option Nat → Option ℚ)
    (dtr : ℚ) (pewt : Bool) (total_discount_amount : ℚ) (lines : List OrderLineT) :
    Option (List LineCalcResult) :=
  let order_total_price := (lines.map (fun l => l.base_unit_price * (l.quantity : ℚ))).sum
  processOrderLines prec lookup dtr pewt total_discount_amount order_total_price lines 0

/-- The discount share assigned by one loop iteration (lines 126-135): the
remainder for the last line, the quantized proportional share otherwise. -/
def pLineShare (prec : Nat) (OT D : ℚ) (isLast : Bool) (acc : ℚ) (l : OrderLineT) : ℚ :=
  if isLast then D - acc
  else quantizeQ prec (l.base_unit_price * (l.quantity : ℚ) / OT * D)

/-- The list of discount shares produced by the loop, written as the spec
words it: every line but the last gets
`round(line_total / order_total × total_discount)`, the last line gets the
remainder `total_discount - (sum of the earlier shares)`. -/
def sharesGo (prec : Nat) (OT D : ℚ) : List ℚ → ℚ → List ℚ
  | [], _ => []
  | [_], acc => [D - acc]
  | lt :: rest, acc =>
    let s := quantizeQ prec (lt / OT * D)
    s :: sharesGo prec OT D rest (acc + s)

/-- `OrderDiscountType`: only MANUAL matters to the calculator. -/
inductive OrderDiscountTypeT where
  | manual
  | other
deriving DecidableEq

/-- An order-level discount row. -/
structure OrderDiscountT where
  type : OrderDiscountTypeT
  amount : ℚ
deriving DecidableEq

/-- The order fields `_calculate_order_total` reads: the currency (as its
precision), the base shipping price, the taxed shipping price, and the
discounts (in query order, so `.first()` is `List.find?`). -/
structure OrderT where
  prec : Nat
  base_shipping_price : ℚ
  shipping_price : TaxedMoneyQ
  discounts : List OrderDiscountT

/-- Modelled from the spec: `base_calculations.base_order_total` (not among
the sources) — "the order's base total (lines + shipping, no tax)". -/
def base_order_total (o : OrderT) (lines : List OrderLineT) : ℚ :=
  (lines.map (fun l => l.base_unit_price * (l.quantity : ℚ))).sum + o.base_shipping_price

/-- `_calculate_order_total`. -/
def _calculate_order_total (o : OrderT) (lines : List OrderLineT) : TaxedMoneyQ :=
  let default_value := base_order_total o lines
  let dv : TaxedMoneyQ := ⟨default_value, default_value⟩
  if tmLe dv ⟨0, 0⟩ then quantizeTM o.prec dv
  else
    let total := tmAdd (lines.foldl (fun acc ln => tmAdd acc ln.total_price) ⟨0, 0⟩)
      o.shipping_price
    let undiscounted_subtotal :=
      lines.foldl (fun acc ln => tmAdd acc ln.undiscounted_total_price) ⟨0, 0⟩
    let total2 :=
      match o.discounts.find? (fun d => decide (d.type = OrderDiscountTypeT.manual)) with
      | some d =>
        if undiscounted_subtotal.gross < d.amount then
          tmSubMoney total (d.amount - undiscounted_subtotal.gross)
        else total
      | none => total
    quantizeTM o.prec (tmMaxZero total2)

/-! ## Concrete lines and orders for the calculator claims -/

/-- A line priced 10.00, quantity 1, with a variant. -/
def lineTen : OrderLineT := ⟨10, 10, 1, some ⟨none⟩, ⟨0, 0⟩, ⟨0, 0⟩, ⟨0, 0⟩, ⟨0, 0⟩, 0⟩

/-- A second line priced 10.00 (distinct undiscounted price). -/
def lineTenB : OrderLineT := ⟨10, 11, 1, some ⟨none⟩, ⟨0, 0⟩, ⟨0, 0⟩, ⟨0, 0⟩, ⟨0, 0⟩, 0⟩

/-- A zero-priced line with a variant. -/
def lineZero : OrderLineT := ⟨0, 0, 1, some ⟨none⟩, ⟨0, 0⟩, ⟨0, 0⟩, ⟨0, 0⟩, ⟨0, 0⟩, 0⟩

/-- The result of processing `lineTen` alone under a 50.00 discount. -/
def c6_result : LineCalcResult :=
  ⟨⟨10, 10, 1, some ⟨none⟩, ⟨0, 0⟩, ⟨10, 10⟩, ⟨0, 0⟩, ⟨10, 10⟩, 0⟩, some 50, some 0⟩

/-- A line whose base price is negative (so the base order total is
negative). -/
def c4_line : OrderLineT := ⟨-1, 0, 1, none, ⟨0, 0⟩, ⟨0, 0⟩, ⟨0, 0⟩, ⟨0, 0⟩, 0⟩

/-- An order with no discounts and zero shipping. -/
def c4_order : OrderT := ⟨2, 0, ⟨0, 0⟩, []⟩

/-- A line with taxed totals 11.00 for the shipping-compensation example. -/
def c7_line : OrderLineT := ⟨10, 10, 1, some ⟨none⟩, ⟨11, 11⟩, ⟨11, 11⟩, ⟨11, 11⟩, ⟨11, 11⟩, 10⟩

/-- An order with a manual discount of 100.00, exceeding the undiscounted
line subtotal of 11.00. -/
def c7_order : OrderT := ⟨2, 0, ⟨0, 0⟩, [⟨.manual, 100⟩]⟩

/-! ## Theorems -/

theorem splitUnders_of_not_mem (l : List Char) (h : '_' ∉ l) : splitUnders l = [l] := by
  induction l with
  | nil => rfl
  | cons c cs ih =>
    simp only [List.mem_cons, not_or] at h
    unfold splitUnders
    rw [if_neg (fun hc => h.1 hc.symm), ih h.2]

theorem toCamelCase_fixed (s : String) (h : noUnderscoreKey s = true) : toCamelCase s = s := by
  have h2 : '_' ∉ s.data := of_decide_eq_true h
  unfold toCamelCase
  rw [splitUnders_of_not_mem s.data h2]
  simp only [camelJoin, List.map_nil, List.flatten_nil, List.append_nil]

mutual
theorem clean_fixed : (p : PredValue) → noUnderscoreKeys p = true →
    clean_predicate p = none ∨ clean_predicate p = some p
  | .leaf _, _ => Or.inl rfl
  | .pdict es, h => by
    have h2 : noUnderscoreEntriesKeys es = true := h
    unfold clean_predicate
    cases hc : (containsOperator es && decide (es.length > 1)) with
    | true => simp [hc]
    | false => rcases clean_fixed_entries es h2 with he | he <;> simp [hc, he]
  | .plist l, h => by
    have h2 : noUnderscoreItemsKeys l = true := h
    unfold clean_predicate
    rcases clean_fixed_items l h2 with he | he <;> simp [he]

theorem clean_fixed_entries : (es : List (String × PredValue)) →
    noUnderscoreEntriesKeys es = true →
    cleanPredEntries es = none ∨ cleanPredEntries es = some es
  | [], _ => Or.inr rfl
  | (k, v) :: rest, h => by
    simp only [noUnderscoreEntriesKeys, Bool.and_eq_true] at h
    obtain ⟨⟨hk, hv⟩, hrest⟩ := h
    have hkey : toCamelCase k = k := toCamelCase_fixed k hk
    unfold cleanPredEntries
    cases v with
    | leaf s =>
      rcases clean_fixed_entries rest hrest with hr | hr <;> simp [hr, hkey]
    | pdict es2 =>
      rcases clean_fixed (.pdict es2) hv with hc | hc <;>
        rcases clean_fixed_entries rest hrest with hr | hr <;> simp [hc, hr, hkey]
    | plist l2 =>
      rcases clean_fixed (.plist l2) hv with hc | hc <;>
        rcases clean_fixed_entries rest hrest with hr | hr <;> simp [hc, hr, hkey]

theorem clean_fixed_items : (l : List PredValue) → noUnderscoreItemsKeys l = true →
    cleanPredItems l = none ∨ cleanPredItems l = some l
  | [], _ => Or.inr rfl
  | v :: rest, h => by
    simp only [noUnderscoreItemsKeys, Bool.and_eq_true] at h
    obtain ⟨hv, hrest⟩ := h
    unfold cleanPredItems
    cases v with
    | leaf s =>
      rcases clean_fixed_items rest hrest with hr | hr <;> simp [hr]
    | pdict es2 =>
      rcases clean_fixed (.pdict es2) hv with hc | hc <;>
        rcases clean_fixed_items rest hrest with hr | hr <;> simp [hc, hr]
    | plist l2 =>
      rcases clean_fixed (.plist l2) hv with hc | hc <;>
        rcases clean_fixed_items rest hrest with hr | hr <;> simp [hc, hr]
end

/-- Claim C8 counterexample: `clean_predicate` is not idempotent.  The key
`"a__b"` (a doubled underscore) is normalized to `"a_B"`, and normalizing the
result again yields a different tree with key `"aB"`. -/
theorem c8_clean_predicate_not_idempotent :
    clean_predicate (.pdict [("a__b", .leaf "x")]) = some (.pdict [("a_B", .leaf "x")]) ∧
    clean_predicate (.pdict [("a_B", .leaf "x")]) = some (.pdict [("aB", .leaf "x")]) ∧
    PredValue.pdict [("aB", .leaf "x")] ≠ PredValue.pdict [("a_B", .leaf "x")] :=
  ⟨by decide, by decide, by decide⟩

/-- Claim C8 (amended): on predicate trees all of whose dict keys (at every
level) contain no underscore, a successful `clean_predicate` returns the tree
unchanged, and re-applying `clean_predicate` to the result succeeds and
returns it unchanged — i.e. `clean_predicate` is idempotent on such trees. -/
theorem c8_clean_predicate_idempotent (p q : PredValue)
    (hk : noUnderscoreKeys p = true) (hc : clean_predicate p = some q) :
    q = p ∧ clean_predicate q = some q := by
  rcases clean_fixed p hk with h | h
  · rw [h] at hc; cases hc
  · rw [h] at hc
    obtain rfl : p = q := Option.some.inj hc
    exact ⟨rfl, h⟩

/-- Witness for the amended C8 theorem at a concrete normalized tree. -/
theorem c8_clean_predicate_idempotent_witness :
    clean_predicate (.pdict [("orderValue", .leaf "y")]) =
      some (.pdict [("orderValue", .leaf "y")]) :=
  (c8_clean_predicate_idempotent (.pdict [("orderValue", .leaf "y")])
    (.pdict [("orderValue", .leaf "y")]) (by decide) (by decide)).2

example : clean_predicate (.pdict [("a__b", .leaf "x")]) = some (.pdict [("a_B", .leaf "x")]) := by decide

example : clean_predicate (.pdict [("a_B", .leaf "x")]) = some (.pdict [("aB", .leaf "x")]) := by decide

example : toCamelCase "subtotal_price" = "subtotalPrice" := by decide

example : clean_predicate (.pdict [("AND", .leaf "x"), ("b", .leaf "y")]) = none := by decide

/-! ## Helper lemmas for the validator theorems -/

theorem mem_insertCurrency (l : List String) (c x : String) :
    x ∈ insertCurrency l c ↔ x ∈ l ∨ x = c := by
  unfold insertCurrency
  by_cases h : c ∈ l
  · simp only [if_pos h]
    exact ⟨Or.inl, fun hh => hh.elim id (fun he => he ▸ h)⟩
  · simp [if_neg h]

theorem mem_foldl_insertCurrency (chans : List Channel) (acc : List String) (c : String) :
    c ∈ chans.foldl (fun a ch => insertCurrency a ch.currency_code) acc ↔
      c ∈ acc ∨ ∃ ch ∈ chans, ch.currency_code = c := by
  induction chans generalizing acc with
  | nil => simp
  | cons ch rest ih =>
    simp only [List.foldl_cons, ih, mem_insertCurrency, List.mem_cons]
    constructor
    · rintro ((h | h) | ⟨ch2, h2, h3⟩)
      · exact Or.inl h
      · exact Or.inr ⟨ch, Or.inl rfl, h.symm⟩
      · exact Or.inr ⟨ch2, Or.inr h2, h3⟩
    · rintro (h | ⟨ch2, (rfl | h2), h3⟩)
      · exact Or.inl (Or.inl h)
      · exact Or.inl (Or.inr h3.symm)
      · exact Or.inr ⟨ch2, h2, h3⟩

theorem mem_currenciesOf (chans : List Channel) (c : String) :
    c ∈ currenciesOf chans ↔ ∃ ch ∈ chans, ch.currency_code = c := by
  unfold currenciesOf
  rw [mem_foldl_insertCurrency]
  simp

theorem clean_promotion_rule_short_circuit (cfg : ValidatorConfig) (input : CleanedInput)
    (inst : Option RuleInstance) (pt : Option PredicateType)
    (h : (_clean_predicates input (effectiveCataloguePredicate input inst)
      (effectiveCheckoutPredicate input inst) inst pt).1 = true) :
    clean_promotion_rule cfg input inst pt =
      (input, (_clean_predicates input (effectiveCataloguePredicate input inst)
        (effectiveCheckoutPredicate input inst) inst pt).2) := by
  unfold clean_promotion_rule
  simp [h]

theorem clean_predicates_both_none (input : CleanedInput) (catP chkP : Option PredValue)
    (inst : Option RuleInstance) (pt : Option PredicateType)
    (h1 : catP = none) (h2 : chkP = none) :
    _clean_predicates input catP chkP inst pt =
      (true, [(.catalogue_predicate, .required), (.checkout_and_order_predicate, .required)]) := by
  unfold _clean_predicates
  simp [h1, h2]

theorem clean_predicates_both_truthy (input : CleanedInput) (catP chkP : Option PredValue)
    (inst : Option RuleInstance) (pt : Option PredicateType)
    (h1 : optPredTruthy catP = true) (h2 : optPredTruthy chkP = true) :
    _clean_predicates input catP chkP inst pt =
      (true,
        (if inst.isSome then
          ([FieldName.catalogue_predicate, FieldName.checkout_and_order_predicate].filter
            (fun f => inputHasField input f))
         else [FieldName.catalogue_predicate, FieldName.checkout_and_order_predicate]).map
          (fun f => (f, ErrCode.mixed_predicates))) := by
  have hne : ¬(catP = none ∧ chkP = none) := by
    rintro ⟨rfl, -⟩
    exact Bool.noConfusion h1
  unfold _clean_predicates
  rcases inst with - | i <;> simp_all

theorem clean_predicates_conflict_cat (input : CleanedInput) (catP chkP : Option PredValue)
    (inst : Option RuleInstance)
    (h1 : optPredTruthy catP = true) (h2 : optPredTruthy chkP = false) :
    _clean_predicates input catP chkP inst (some PredicateType.checkout_and_order) =
      (true, [(.catalogue_predicate, .mixed_promotion_predicates)]) := by
  have hne : ¬(catP = none ∧ chkP = none) := by
    rintro ⟨rfl, -⟩
    exact Bool.noConfusion h1
  unfold _clean_predicates
  simp_all

theorem clean_predicates_conflict_chk (input : CleanedInput) (catP chkP : Option PredValue)
    (inst : Option RuleInstance)
    (h1 : optPredTruthy chkP = true) (h2 : optPredTruthy catP = false) :
    _clean_predicates input catP chkP inst (some PredicateType.catalogue) =
      (true, [(.checkout_and_order_predicate, .mixed_promotion_predicates)]) := by
  have hne : ¬(catP = none ∧ chkP = none) := by
    rintro ⟨-, rfl⟩
    exact Bool.noConfusion h1
  unfold _clean_predicates
  simp_all

/-! ## Claim C2 -/

/-- Claim C2 counterexample: with both predicate keys present but holding an
empty dict (and no instance), `clean_promotion_rule` records no error at all —
neither the REQUIRED pair (the `is None` test sees non-`None` values) nor any
MIXED_PREDICATES error (the truthiness test sees falsy values) — although the
claim requires one of the two for every such input. -/
theorem c2_counterexample :
    (clean_promotion_rule ⟨5, fun _ => 2⟩ c2_input none none).2 = [] := by decide

/-- Claim C2 (amended): if both effective predicates are `None`, both
predicate fields receive a REQUIRED error and nothing else is recorded; if
both are truthy, MIXED_PREDICATES errors are recorded (on update only on the
predicate keys present in the input) and nothing else; and on a
promotion-kind conflict a single MIXED_PROMOTION_PREDICATES error is
recorded and nothing else — in every failure case stages 2-4 are skipped, so
no catalogue, checkout/order, or reward errors are added in the same call.
An effective predicate that is present but empty (falsy) triggers neither
branch. -/
theorem c2_predicate_presence_exclusivity (cfg : ValidatorConfig) (input : CleanedInput)
    (inst : Option RuleInstance) (pt : Option PredicateType) :
    ((effectiveCataloguePredicate input inst = none ∧
      effectiveCheckoutPredicate input inst = none) →
      (clean_promotion_rule cfg input inst pt).2 =
        [(.catalogue_predicate, .required), (.checkout_and_order_predicate, .required)]) ∧
    ((optPredTruthy (effectiveCataloguePredicate input inst) = true ∧
      optPredTruthy (effectiveCheckoutPredicate input inst) = true) →
      (clean_promotion_rule cfg input inst pt).2 =
        ((if inst.isSome then
          [FieldName.catalogue_predicate, FieldName.checkout_and_order_predicate].filter
            (fun f => inputHasField input f)
         else [FieldName.catalogue_predicate, FieldName.checkout_and_order_predicate]).map
          (fun f => (f, ErrCode.mixed_predicates)))) ∧
    ((optPredTruthy (effectiveCataloguePredicate input inst) = true ∧
      optPredTruthy (effectiveCheckoutPredicate input inst) = false ∧
      pt = some PredicateType.checkout_and_order) →
      (clean_promotion_rule cfg input inst pt).2 =
        [(.catalogue_predicate, .mixed_promotion_predicates)]) ∧
    ((optPredTruthy (effectiveCheckoutPredicate input inst) = true ∧
      optPredTruthy (effectiveCataloguePredicate input inst) = false ∧
      pt = some PredicateType.catalogue) →
      (clean_promotion_rule cfg input inst pt).2 =
        [(.checkout_and_order_predicate, .mixed_promotion_predicates)]) := by
  refine ⟨fun h => ?_, fun h => ?_, fun h => ?_, fun h => ?_⟩
  · rw [clean_promotion_rule_short_circuit cfg input inst pt
      (by rw [clean_predicates_both_none input _ _ inst pt h.1 h.2])]
    rw [clean_predicates_both_none input _ _ inst pt h.1 h.2]
  · rw [clean_promotion_rule_short_circuit cfg input inst pt
      (by rw [clean_predicates_both_truthy input _ _ inst pt h.1 h.2])]
    rw [clean_predicates_both_truthy input _ _ inst pt h.1 h.2]
  · obtain ⟨h1, h2, rfl⟩ := h
    rw [clean_promotion_rule_short_circuit cfg input inst _
      (by rw [clean_predicates_conflict_cat input _ _ inst h1 h2])]
    rw [clean_predicates_conflict_cat input _ _ inst h1 h2]
  · obtain ⟨h1, h2, rfl⟩ := h
    rw [clean_promotion_rule_short_circuit cfg input inst _
      (by rw [clean_predicates_conflict_chk input _ _ inst h1 h2])]
    rw [clean_predicates_conflict_chk input _ _ inst h1 h2]

/-- Witness for the amended C2 theorem: an entirely empty create input has
both effective predicates `None` and receives exactly the two REQUIRED
errors. -/
theorem c2_predicate_presence_exclusivity_witness :
    (clean_promotion_rule ⟨5, fun _ => 2⟩ emptyInput none none).2 =
      [(.catalogue_predicate, .required), (.checkout_and_order_predicate, .required)] :=
  (c2_predicate_presence_exclusivity ⟨5, fun _ => 2⟩ emptyInput none none).1 ⟨rfl, rfl⟩

/-! ## Claim C3 -/

/-- Claim C3 counterexample: the instance has channels 1 and 2, both in USD;
the update removes only channel 1.  The claimed effective set — currencies of
`(existing − removed) ∪ added` — is `\x7b"USD"\x7d` because channel 2
remains, but `_get_channel_currencies` subtracts whole currency sets and
returns the empty set. -/
theorem c3_counterexample :
    _get_channel_currencies c3_input (some c3_inst) = [] ∧
    claimed_channel_currencies c3_input c3_inst = ["USD"] := by decide

/-- Claim C3 (amended): on update the effective currency set is
`(currencies(existing) − currencies(removed)) ∪ currencies(added)` — the set
difference is taken on currency codes, so removing one channel removes its
currency even when another remaining channel still has it. -/
theorem c3_channel_currencies (input : CleanedInput) (i : RuleInstance) (c : String) :
    c ∈ _get_channel_currencies input (some i) ↔
      ((∃ ch ∈ i.channels, ch.currency_code = c) ∧
        ¬ ∃ ch ∈ (getOpt input.remove_channels).getD [], ch.currency_code = c) ∨
      ∃ ch ∈ (getOpt input.add_channels).getD [], ch.currency_code = c := by
  have hdef : _get_channel_currencies input (some i) =
      ((getOpt input.add_channels).getD []).foldl
        (fun acc ch => insertCurrency acc ch.currency_code)
        ((currenciesOf i.channels).filter
          (fun c2 => !(currenciesOf ((getOpt input.remove_channels).getD [])).contains c2)) := rfl
  rw [hdef, mem_foldl_insertCurrency]
  constructor
  · rintro (hmem | hadd)
    · rw [List.mem_filter] at hmem
      obtain ⟨hbase, hflag⟩ := hmem
      left
      refine ⟨(mem_currenciesOf _ _).1 hbase, fun hrem => ?_⟩
      have hc2 : c ∈ currenciesOf ((getOpt input.remove_channels).getD []) :=
        (mem_currenciesOf _ _).2 hrem
      have hc3 : (currenciesOf ((getOpt input.remove_channels).getD [])).contains c = true :=
        List.elem_iff.2 hc2
      rw [hc3] at hflag
      simp at hflag
    · exact Or.inr hadd
  · rintro (⟨hbase, hnot⟩ | hadd)
    · left
      rw [List.mem_filter]
      refine ⟨(mem_currenciesOf _ _).2 hbase, ?_⟩
      rw [Bool.not_eq_true']
      cases h : (currenciesOf ((getOpt input.remove_channels).getD [])).contains c with
      | false => rfl
      | true => exact (hnot ((mem_currenciesOf _ _).1 (List.elem_iff.1 h))).elim
    · exact Or.inr hadd

/-! ## Claim C5 -/

/-- Claim C5 counterexample: on this update input (price-based checkout/order
predicate, two effective currencies, FIXED reward with a truthy value) the
call records TWO `MULTIPLE_CURRENCIES_NOT_ALLOWED` errors — one from the
predicate stage on `add_channels` and a second from the reward stage on
`reward_value_type` — not exactly one. -/
theorem c5_counterexample :
    (clean_promotion_rule ⟨5, fun _ => 2⟩ c5_input (some c5_inst)
      (some .checkout_and_order)).2 =
      [(.add_channels, .multiple_currencies_not_allowed),
       (.reward_value_type, .multiple_currencies_not_allowed)] := by decide

/-- Claim C5 (amended): when an effective checkout/order predicate and a
reward type are present, the predicate references a subtotal/total price
field, and the effective currency set has more than one currency, the
checkout/order-predicate stage records exactly one
MULTIPLE_CURRENCIES_NOT_ALLOWED error — on `channels` for create, on update
on `add_channels` when that key is in the input and otherwise on
`checkout_and_order_predicate` — and the stage stops: the predicate is not
normalized and the rules-limit check does not run.  (The reward stage may
add a second MULTIPLE_CURRENCIES_NOT_ALLOWED error in the same call on
update with an effective FIXED reward value.) -/
theorem c5_checkout_predicate_multi_currency (input : CleanedInput) (p : PredValue)
    (currencies : List String) (cfg : ValidatorConfig) (inst : Option RuleInstance)
    (errs : List FieldErr)
    (hp : predTruthy p = true)
    (hrt : effectiveRewardType input inst ≠ none)
    (hpb : priceBasedPredicate p = true)
    (hc : 1 < currencies.length) :
    _clean_checkout_and_order_predicate input (some p) currencies cfg inst errs =
      (input, errs ++ [(multiCurrencyErrorField input inst,
        .multiple_currencies_not_allowed)]) := by
  unfold _clean_checkout_and_order_predicate
  simp [optPredTruthy, hp, hrt, hpb, hc]

/-- Witness for the amended C5 theorem: a create input (no instance) with a
price-based predicate and two currencies gets the single stage error on
`channels`. -/
theorem c5_checkout_predicate_multi_currency_witness :
    _clean_checkout_and_order_predicate c5w_input
      (some (.pdict [("subtotalPrice", .leaf "z")])) ["USD", "EUR"] ⟨5, fun _ => 2⟩
      none [] =
      (c5w_input, [(.channels, .multiple_currencies_not_allowed)]) :=
  c5_checkout_predicate_multi_currency c5w_input (.pdict [("subtotalPrice", .leaf "z")])
    ["USD", "EUR"] ⟨5, fun _ => 2⟩ none [] (by decide) (by decide) (by decide) (by decide)

/-! ## Claim C10 -/

/-- Claim C10: in `_clean_reward`, a reward value equal to zero together with
a present reward value type (and an effective predicate) produces no error:
zero is not `None`, so the REQUIRED checks pass, and zero is falsy, so
`_clean_reward_value` (precision / percentage validation) is never invoked. -/
theorem c10_zero_reward_value_no_error (input : CleanedInput)
    (catP chkP : Option PredValue) (currencies : List String) (cfg : ValidatorConfig)
    (inst : Option RuleInstance) (errs : List FieldErr) (t : RewardValueType)
    (hpred : optPredTruthy catP = true ∨ optPredTruthy chkP = true)
    (hv : effectiveRewardValue input inst = some 0)
    (ht : effectiveRewardValueType input inst = some t) :
    _clean_reward input catP chkP currencies cfg inst errs = errs := by
  unfold _clean_reward
  cases h : (inst.isSome && input.reward_value = none && input.reward_value_type = none) with
  | true => simp [h]
  | false => simp [h, hv, ht]

/-- Witness for C10: a concrete create input with reward value 0 and
percentage type, and a truthy catalogue predicate, yields no reward errors. -/
theorem c10_zero_reward_value_no_error_witness :
    _clean_reward c10_input (some (.pdict [("x", .leaf "1")])) none [] ⟨5, fun _ => 2⟩
      none [] = [] :=
  c10_zero_reward_value_no_error c10_input (some (.pdict [("x", .leaf "1")])) none []
    ⟨5, fun _ => 2⟩ none [] .percentage (Or.inl (by decide)) (by decide) (by decide)

/-! ## Rounding lemmas -/

theorem roundHalfEven_nonneg (x : ℚ) (h : 0 ≤ x) : 0 ≤ roundHalfEven x := by
  unfold roundHalfEven
  dsimp only
  have hf : 0 ≤ ⌊x⌋ := Int.le_floor.2 (by exact_mod_cast h)
  split_ifs <;> omega

theorem roundHalfEven_nonpos (x : ℚ) (h : x ≤ 0) : roundHalfEven x ≤ 0 := by
  unfold roundHalfEven
  dsimp only
  have hfle : (⌊x⌋ : ℚ) ≤ x := Int.floor_le x
  have hf : ⌊x⌋ ≤ 0 := by exact_mod_cast hfle.trans h
  split_ifs with h1 h2 h3
  · exact hf
  · have h4 : (⌊x⌋ : ℚ) < 0 := by
      have h5 := not_lt.1 h1
      linarith
    have h6 : ⌊x⌋ < 0 := by exact_mod_cast h4
    omega
  · exact hf
  · have h4 : (⌊x⌋ : ℚ) < 0 := by
      have h5 := not_lt.1 h1
      linarith
    have h6 : ⌊x⌋ < 0 := by exact_mod_cast h4
    omega

theorem quantizeQ_nonneg (prec : Nat) (x : ℚ) (h : 0 ≤ x) : 0 ≤ quantizeQ prec x := by
  unfold quantizeQ
  have h1 : (0 : ℚ) ≤ x * (10 : ℚ) ^ prec := mul_nonneg h (by positivity)
  have h3 : (0 : ℚ) ≤ (roundHalfEven (x * (10 : ℚ) ^ prec) : ℚ) := by
    exact_mod_cast roundHalfEven_nonneg _ h1
  exact div_nonneg h3 (by positivity)

theorem quantizeQ_nonpos (prec : Nat) (x : ℚ) (h : x ≤ 0) : quantizeQ prec x ≤ 0 := by
  unfold quantizeQ
  have hp : (0 : ℚ) ≤ (10 : ℚ) ^ prec := by positivity
  have h1 : x * (10 : ℚ) ^ prec ≤ 0 := by nlinarith
  have h3 : ((roundHalfEven (x * (10 : ℚ) ^ prec)) : ℚ) ≤ 0 := by
    exact_mod_cast roundHalfEven_nonpos _ h1
  exact div_nonpos_of_nonpos_of_nonneg h3 hp

theorem quantizeQ_zero (prec : Nat) : quantizeQ prec 0 = 0 := by
  unfold quantizeQ roundHalfEven
  norm_num

theorem max_quantizeQ_zero (prec : Nat) (x : ℚ) :
    max (quantizeQ prec x) 0 = quantizeQ prec (max x 0) := by
  rcases le_total 0 x with h | h
  · rw [max_eq_left h, max_eq_left (quantizeQ_nonneg prec x h)]
  · rw [max_eq_right h, max_eq_right (quantizeQ_nonpos prec x h), quantizeQ_zero]

theorem sharesGo_sum (prec : Nat) (OT D : ℚ) :
    ∀ (lts : List ℚ) (acc : ℚ), lts ≠ [] → (sharesGo prec OT D lts acc).sum = D - acc
  | [], _, hne => absurd rfl hne
  | [lt], acc, _ => by simp [sharesGo]
  | lt :: lt2 :: rest, acc, _ => by
    have ih := sharesGo_sum prec OT D (lt2 :: rest) (acc + quantizeQ prec (lt / OT * D))
      (by simp)
    simp only [sharesGo, List.sum_cons, ih]
    ring

/-! ## Loop lemmas -/

theorem processOrderLine_spec (prec : Nat) (lookup : Option Nat → Option ℚ) (dtr : ℚ)
    (pewt : Bool) (D OT : ℚ) (isLast : Bool) (acc : ℚ) (l : OrderLineT)
    (r : LineCalcResult) (acc2 : ℚ)
    (h : processOrderLine prec lookup dtr pewt D OT isLast acc l = some (r, acc2)) :
    r.line.base_unit_price = l.base_unit_price ∧
    r.line.quantity = l.quantity ∧
    ∀ s, r.discount_share = some s →
      r.price_with_discounts =
        some (max (quantizeQ prec
          ((l.base_unit_price * (l.quantity : ℚ) - s) / (l.quantity : ℚ))) 0) := by
  unfold processOrderLine at h
  cases hv : l.variant with
  | none =>
    rw [hv] at h
    simp only [Option.some.injEq, Prod.mk.injEq] at h
    obtain ⟨h1, -⟩ := h
    subst h1
    exact ⟨rfl, rfl, fun s hs => by simp at hs⟩
  | some v =>
    rw [hv] at h
    dsimp only at h
    by_cases hD : D ≠ 0
    · simp only [if_pos hD] at h
      cases hsh : (if isLast then some (D - acc)
          else if OT = 0 then none
          else some (quantizeQ prec (l.base_unit_price * (l.quantity : ℚ) / OT * D))) with
      | none => rw [hsh] at h; simp at h
      | some s0 =>
        rw [hsh] at h
        by_cases hq : l.quantity = 0
        · simp [hq] at h
        · simp only [if_neg hq, Option.some.injEq, Prod.mk.injEq] at h
          obtain ⟨h1, -⟩ := h
          subst h1
          refine ⟨rfl, rfl, fun s hs => ?_⟩
          simp only at hs
          obtain rfl := Option.some.inj hs
          rfl
    · simp only [if_neg hD, Option.some.injEq, Prod.mk.injEq] at h
      obtain ⟨h1, -⟩ := h
      subst h1
      exact ⟨rfl, rfl, fun s hs => by simp at hs⟩

theorem processOrderLine_success (prec : Nat) (lookup : Option Nat → Option ℚ) (dtr : ℚ)
    (pewt : Bool) (D OT : ℚ) (isLast : Bool) (acc : ℚ) (l : OrderLineT)
    (hv : l.variant.isSome = true) (hq : l.quantity ≠ 0) (hD : D ≠ 0) (hOT : OT ≠ 0) :
    ∃ r, processOrderLine prec lookup dtr pewt D OT isLast acc l =
        some (r, acc + pLineShare prec OT D isLast acc l) ∧
      r.discount_share = some (pLineShare prec OT D isLast acc l) := by
  obtain ⟨v, hv2⟩ := Option.isSome_iff_exists.1 hv
  refine ⟨⟨finishLine prec pewt (tax_rate_for_line lookup dtr v)
      (max (quantizeQ prec ((l.base_unit_price * (l.quantity : ℚ) -
        pLineShare prec OT D isLast acc l) / (l.quantity : ℚ))) 0) l,
    some (pLineShare prec OT D isLast acc l),
    some (max (quantizeQ prec ((l.base_unit_price * (l.quantity : ℚ) -
      pLineShare prec OT D isLast acc l) / (l.quantity : ℚ))) 0)⟩, ?_, rfl⟩
  unfold processOrderLine pLineShare
  rw [hv2]
  cases isLast with
  | true => simp [hD, hq]
  | false => simp [hD, hq, hOT]

theorem processOrderLines_cons (prec : Nat) (lookup : Option Nat → Option ℚ) (dtr : ℚ)
    (pewt : Bool) (D OT : ℚ) (l : OrderLineT) (rest : List OrderLineT) (acc : ℚ) :
    processOrderLines prec lookup dtr pewt D OT (l :: rest) acc =
      match processOrderLine prec lookup dtr pewt D OT rest.isEmpty acc l with
      | none => none
      | some (r, acc2) =>
        match processOrderLines prec lookup dtr pewt D OT rest acc2 with
        | none => none
        | some rs => some (r :: rs) := rfl

theorem processOrderLines_shares (prec : Nat) (lookup : Option Nat → Option ℚ) (dtr : ℚ)
    (pewt : Bool) (D OT : ℚ) :
    ∀ (lines : List OrderLineT) (acc : ℚ), lines ≠ [] →
    (∀ l ∈ lines, l.variant.isSome) → (∀ l ∈ lines, l.quantity ≠ 0) →
    D ≠ 0 → OT ≠ 0 →
    ∃ out, processOrderLines prec lookup dtr pewt D OT lines acc = some out ∧
      out.map (fun r => r.discount_share) =
        (sharesGo prec OT D (lines.map (fun l => l.base_unit_price * (l.quantity : ℚ))) acc).map
          some
  | [], _, hne, _, _, _, _ => absurd rfl hne
  | [l], acc, _, hv, hq, hD, hOT => by
    obtain ⟨r, hr, hshare⟩ := processOrderLine_success prec lookup dtr pewt D OT true acc l
      (hv l (by simp)) (hq l (by simp)) hD hOT
    refine ⟨[r], ?_, ?_⟩
    · rw [processOrderLines_cons]
      simp only [List.isEmpty_nil]
      rw [hr]
      rfl
    · simp [hshare, sharesGo, pLineShare]
  | l :: l2 :: rest, acc, _, hv, hq, hD, hOT => by
    obtain ⟨r, hr, hshare⟩ := processOrderLine_success prec lookup dtr pewt D OT false acc l
      (hv l (by simp)) (hq l (by simp)) hD hOT
    obtain ⟨out2, hout2, hmap2⟩ := processOrderLines_shares prec lookup dtr pewt D OT
      (l2 :: rest) (acc + pLineShare prec OT D false acc l) (by simp)
      (fun x hx => hv x (List.mem_cons_of_mem _ hx))
      (fun x hx => hq x (List.mem_cons_of_mem _ hx)) hD hOT
    refine ⟨r :: out2, ?_, ?_⟩
    · rw [processOrderLines_cons]
      simp only [List.isEmpty_cons]
      rw [hr]
      dsimp only
      rw [hout2]
    · simp only [List.map_cons, hshare, hmap2, sharesGo, pLineShare]
      simp [pLineShare]

theorem processOrderLines_pwd (prec : Nat) (lookup : Option Nat → Option ℚ) (dtr : ℚ)
    (pewt : Bool) (D OT : ℚ) :
    ∀ (lines : List OrderLineT) (acc : ℚ) (out : List LineCalcResult),
    processOrderLines prec lookup dtr pewt D OT lines acc = some out →
    ∀ r ∈ out, ∀ s, r.discount_share = some s →
      r.price_with_discounts =
        some (max (quantizeQ prec
          ((r.line.base_unit_price * (r.line.quantity : ℚ) - s) / (r.line.quantity : ℚ))) 0)
  | [], acc, out, h => by
    simp only [processOrderLines, Option.some.injEq] at h
    subst h
    intro r hr
    simp at hr
  | l :: rest, acc, out, h => by
    rw [processOrderLines_cons] at h
    cases hpl : processOrderLine prec lookup dtr pewt D OT rest.isEmpty acc l with
    | none => rw [hpl] at h; simp at h
    | some pr =>
      obtain ⟨r0, acc3⟩ := pr
      rw [hpl] at h
      dsimp only at h
      cases hrest : processOrderLines prec lookup dtr pewt D OT rest acc3 with
      | none => rw [hrest] at h; simp at h
      | some rs =>
        rw [hrest] at h
        simp only [Option.some.injEq] at h
        subst h
        intro r hr s hs
        rcases List.mem_cons.1 hr with rfl | hmem
        · obtain ⟨hb, hq2, hpwd⟩ :=
            processOrderLine_spec prec lookup dtr pewt D OT rest.isEmpty acc l r acc3 hpl
          rw [hb, hq2]
          exact hpwd s hs
        · exact processOrderLines_pwd prec lookup dtr pewt D OT rest acc3 rs hrest r hmem s hs

/-! ## Claim C1 -/

/-- Claim C1: when a nonzero order-level discount is distributed, every line
except the last receives the quantized proportional share and the last line
receives the remainder (`sharesGo` states exactly this), so the shares stored
by `update_taxes_for_order_lines` are `sharesGo`'s and their sum equals the
total discount exactly. -/
theorem c1_discount_shares_sum_exact (prec : Nat) (lookup : Option Nat → Option ℚ)
    (dtr : ℚ) (pewt : Bool) (D : ℚ) (lines : List OrderLineT)
    (hne : lines ≠ [])
    (hv : ∀ l ∈ lines, l.variant.isSome)
    (hq : ∀ l ∈ lines, l.quantity ≠ 0)
    (hD : D ≠ 0)
    (hOT : (lines.map (fun l => l.base_unit_price * (l.quantity : ℚ))).sum ≠ 0) :
    (update_taxes_for_order_lines prec lookup dtr pewt D lines).map
        (fun out => out.map (fun r => r.discount_share)) =
      some ((sharesGo prec ((lines.map (fun l => l.base_unit_price * (l.quantity : ℚ))).sum) D
        (lines.map (fun l => l.base_unit_price * (l.quantity : ℚ))) 0).map some) ∧
    (sharesGo prec ((lines.map (fun l => l.base_unit_price * (l.quantity : ℚ))).sum) D
        (lines.map (fun l => l.base_unit_price * (l.quantity : ℚ))) 0).sum = D := by
  obtain ⟨out, hout, hmap⟩ :=
    processOrderLines_shares prec lookup dtr pewt D _ lines 0 hne hv hq hD hOT
  constructor
  · have hdef : update_taxes_for_order_lines prec lookup dtr pewt D lines =
        processOrderLines prec lookup dtr pewt D
          ((lines.map (fun l => l.base_unit_price * (l.quantity : ℚ))).sum) lines 0 := rfl
    rw [hdef, hout]
    simp [hmap]
  · rw [sharesGo_sum prec _ D _ 0 (by simpa using hne)]
    ring

/-- Witness for C1: two lines of 10.00 with a 5.01 discount; the shares are
2.50 and 2.51 and sum to exactly 5.01. -/
theorem c1_discount_shares_sum_exact_witness :
    (update_taxes_for_order_lines 2 (fun _ => none) 0 false (501 / 100)
        [lineTen, lineTenB]).map (fun out => out.map (fun r => r.discount_share)) =
      some ((sharesGo 2
        (([lineTen, lineTenB].map (fun l => l.base_unit_price * (l.quantity : ℚ))).sum)
        (501 / 100) ([lineTen, lineTenB].map (fun l => l.base_unit_price * (l.quantity : ℚ)))
        0).map some) ∧
    (sharesGo 2 (([lineTen, lineTenB].map (fun l => l.base_unit_price * (l.quantity : ℚ))).sum)
        (501 / 100) ([lineTen, lineTenB].map (fun l => l.base_unit_price * (l.quantity : ℚ)))
        0).sum = 501 / 100 :=
  c1_discount_shares_sum_exact 2 (fun _ => none) 0 false (501 / 100) [lineTen, lineTenB]
    (by decide) (by decide) (by decide) (by norm_num)
    (by norm_num [lineTen, lineTenB])

/-! ## Claim C6 -/

/-- Claim C6: every line that received a discount share stores the discounted
unit price `max(0, (line_total − share) / quantity)` rounded to currency
precision (the code's `max(round(...), 0)` equals the claim's
`round(max(0, ...))`), and that price is never negative. -/
theorem c6_discounted_unit_price_nonneg (prec : Nat) (lookup : Option Nat → Option ℚ)
    (dtr : ℚ) (pewt : Bool) (D : ℚ) (lines : List OrderLineT) (out : List LineCalcResult)
    (h : update_taxes_for_order_lines prec lookup dtr pewt D lines = some out) :
    ∀ r ∈ out, ∀ s, r.discount_share = some s →
      r.price_with_discounts =
        some (max (quantizeQ prec ((r.line.base_unit_price * (r.line.quantity : ℚ) - s) /
          (r.line.quantity : ℚ))) 0) ∧
      r.price_with_discounts =
        some (quantizeQ prec (max ((r.line.base_unit_price * (r.line.quantity : ℚ) - s) /
          (r.line.quantity : ℚ)) 0)) ∧
      ∀ p, r.price_with_discounts = some p → 0 ≤ p := by
  intro r hr s hs
  have h2 : processOrderLines prec lookup dtr pewt D
      ((lines.map (fun l => l.base_unit_price * (l.quantity : ℚ))).sum) lines 0 = some out := h
  have h1 := processOrderLines_pwd prec lookup dtr pewt D _ lines 0 out h2 r hr s hs
  refine ⟨h1, ?_, ?_⟩
  · rw [h1, max_quantizeQ_zero]
  · intro p hp
    rw [h1] at hp
    obtain rfl := Option.some.inj hp
    exact le_max_right _ _

/-- Witness for C6: one line of 10.00 under a 50.00 discount (exceeding the
line total): the stored discounted unit price is 0, not negative. -/
theorem c6_discounted_unit_price_nonneg_witness :
    c6_result.price_with_discounts = some 0 ∧ (0 : ℚ) ≤ 0 := by
  have h := c6_discounted_unit_price_nonneg 2 (fun _ => none) 0 false 50 [lineTen]
    [c6_result]
    (by norm_num [update_taxes_for_order_lines, processOrderLines, processOrderLine,
      finishLine, lineTen, c6_result, quantizeQ, roundHalfEven, quantizeTM, tmMulNat,
      calculate_flat_rate_tax, tax_rate_for_line, get_tax_rate_for_tax_class,
      normalize_tax_rate_for_db])
    c6_result (by simp) 50 rfl
  have hpw : c6_result.price_with_discounts = some 0 := by
    rw [h.1]
    norm_num [c6_result, quantizeQ, roundHalfEven]
  exact ⟨hpw, h.2.2 0 hpw⟩

/-! ## Claim C9 -/

/-- Claim C9: with a nonzero discount, at least two lines, and the first line
carrying a variant, a zero `order_total_price` (all base prices zero) makes
the proportional-share division raise `ZeroDivisionError` — the embedded
computation is `none`, so the division indeed requires the order total to be
nonzero. -/
theorem c9_zero_order_total_crash (prec : Nat) (lookup : Option Nat → Option ℚ) (dtr : ℚ)
    (pewt : Bool) (D : ℚ) (l l2 : OrderLineT) (rest : List OrderLineT)
    (hv : l.variant.isSome = true) (hD : D ≠ 0)
    (hOT : ((l :: l2 :: rest).map (fun x => x.base_unit_price * (x.quantity : ℚ))).sum = 0) :
    update_taxes_for_order_lines prec lookup dtr pewt D (l :: l2 :: rest) = none := by
  obtain ⟨v, hv2⟩ := Option.isSome_iff_exists.1 hv
  have hdef : update_taxes_for_order_lines prec lookup dtr pewt D (l :: l2 :: rest) =
      processOrderLines prec lookup dtr pewt D
        (((l :: l2 :: rest).map (fun x => x.base_unit_price * (x.quantity : ℚ))).sum)
        (l :: l2 :: rest) 0 := rfl
  rw [hdef, hOT, processOrderLines_cons]
  have hple : processOrderLine prec lookup dtr pewt D 0 (l2 :: rest).isEmpty 0 l = none := by
    unfold processOrderLine
    rw [hv2]
    simp [hD]
  rw [hple]

/-- Witness for C9: two zero-priced lines with a nonzero discount crash. -/
theorem c9_zero_order_total_crash_witness :
    update_taxes_for_order_lines 2 (fun _ => none) 0 false 5 [lineZero, lineZero] = none :=
  c9_zero_order_total_crash 2 (fun _ => none) 0 false 5 lineZero lineZero [] (by decide)
    (by norm_num) (by norm_num [lineZero])

/-! ## Claim C4 -/

/-- Claim C4 counterexample: with one line priced −1.00 (zero shipping, no
discounts) the base order total is −1.00 ≤ 0, and `_calculate_order_total`
returns the quantized base total −1.00 — not zero money. -/
theorem c4_counterexample :
    _calculate_order_total c4_order [c4_line] = ⟨-1, -1⟩ ∧
    (⟨-1, -1⟩ : TaxedMoneyQ) ≠ ⟨0, 0⟩ := by
  constructor
  · norm_num [_calculate_order_total, base_order_total, c4_order, c4_line, tmLe,
      quantizeTM, quantizeQ, roundHalfEven]
  · simp only [ne_eq, TaxedMoneyQ.mk.injEq, not_and]
    intro h
    norm_num at h

/-- Claim C4 (amended): whenever the base order total is ≤ 0, the function
returns early with the quantized base total as both net and gross — which
equals zero money exactly when the base total is zero — and no discount or
shipping-compensation logic runs (the result reads neither `o.discounts` nor
`o.shipping_price`). -/
theorem c4_nonpositive_base_returns_base (o : OrderT) (lines : List OrderLineT)
    (h : base_order_total o lines ≤ 0) :
    _calculate_order_total o lines =
      quantizeTM o.prec ⟨base_order_total o lines, base_order_total o lines⟩ := by
  unfold _calculate_order_total
  have hle : tmLe ⟨base_order_total o lines, base_order_total o lines⟩ ⟨0, 0⟩ := by
    rcases lt_or_eq_of_le h with h2 | h2
    · exact Or.inl h2
    · exact Or.inr (by rw [h2])
  simp [hle]

/-- Witness for the amended C4 theorem at the concrete negative-total order. -/
theorem c4_nonpositive_base_returns_base_witness :
    _calculate_order_total c4_order [c4_line] =
      quantizeTM 2 ⟨base_order_total c4_order [c4_line], base_order_total c4_order [c4_line]⟩ :=
  c4_nonpositive_base_returns_base c4_order [c4_line]
    (by norm_num [base_order_total, c4_order, c4_line])

/-! ## Claim C7 -/

/-- Claim C7: when the base total is positive and the first manual order
discount exceeds the undiscounted line subtotal by `X = amount − subtotal`,
the order total is the sum of the lines' discounted total prices plus
shipping minus exactly `X` (subtracted from net and gross alike), clamped to
non-negative (by gross) and quantized. -/
theorem c7_shipping_compensation (o : OrderT) (lines : List OrderLineT) (d : OrderDiscountT)
    (hb : 0 < base_order_total o lines)
    (hd : o.discounts.find? (fun x => decide (x.type = OrderDiscountTypeT.manual)) = some d)
    (hx : (lines.foldl (fun acc ln => tmAdd acc ln.undiscounted_total_price) ⟨0, 0⟩).gross <
      d.amount) :
    _calculate_order_total o lines =
      quantizeTM o.prec (tmMaxZero (tmSubMoney
        (tmAdd (lines.foldl (fun acc ln => tmAdd acc ln.total_price) ⟨0, 0⟩) o.shipping_price)
        (d.amount -
          (lines.foldl (fun acc ln => tmAdd acc ln.undiscounted_total_price) ⟨0, 0⟩).gross))) := by
  unfold _calculate_order_total
  have hnle : ¬ tmLe ⟨base_order_total o lines, base_order_total o lines⟩ ⟨0, 0⟩ := by
    rintro (h2 | h2)
    · simp only at h2
      linarith
    · have h3 : base_order_total o lines = 0 := congrArg TaxedMoneyQ.gross h2
      linarith
  dsimp only
  rw [if_neg hnle, hd]
  dsimp only
  rw [if_pos hx]

/-- Witness for C7: one line with taxed totals 11.00, manual discount 100.00
(so X = 89.00), zero shipping. -/
theorem c7_shipping_compensation_witness :
    _calculate_order_total c7_order [c7_line] =
      quantizeTM 2 (tmMaxZero (tmSubMoney
        (tmAdd ([c7_line].foldl (fun acc ln => tmAdd acc ln.total_price) ⟨0, 0⟩)
          c7_order.shipping_price)
        (100 - ([c7_line].foldl (fun acc ln => tmAdd acc ln.undiscounted_total_price)
          ⟨0, 0⟩).gross))) :=
  c7_shipping_compensation c7_order [c7_line] ⟨.manual, 100⟩
    (by norm_num [base_order_total, c7_order, c7_line]) rfl
    (by norm_num [c7_line, tmAdd])
